import Mathlib

/-!
Verification of the activity-feed filter userscript (hideUnwantedActivity, v1.8b).

The development shallowly embeds the two cores of the script:

* the condition evaluation engine (`ActivityHandler`): per-entry removal
  decisions combining primitive predicates, the multi-group string condition,
  linked condition groups and the reversed-conditions mode;
* the pagination control loop (`MainApp.loadMoreOrReset`, `UIHandler`): the
  state machine that auto-continues loading or resets after each batch.

JavaScript evaluation that can throw a `TypeError` (looking up a nested array
in `conditionsMap` yields `undefined`, which is then invoked; calling
`.some`/`.every` on a bare string likewise throws) is modelled with `Option`:
`none` is a thrown exception, `some b` a normal boolean result.  `someM` and
`everyM` reproduce the short-circuit order of `Array.prototype.some`/`every`,
so an exception hidden behind a short-circuit is not raised, exactly as in the
source.
-/

namespace HideUnwanted

/-- A feed entry node, reduced to the queries the evaluator performs on it:
text content, presence of a reply-count and like-count indicator, the two
classification classes, and media presence. -/
structure Node where
  textContent : String
  hasReplyCount : Bool
  hasLikeCount : Bool
  classActivityText : Bool
  classActivityMessage : Bool
  hasImage : Bool
  hasVideoElement : Bool
  hasYouTubeSpan : Bool
deriving DecidableEq

/-- An element of `remove.containsStrings`: either a bare string or an inner
array of strings (an all-of group). -/
inductive StringPattern where
  | str (s : String)
  | group (g : List String)
deriving DecidableEq

/-- The closed set of condition identifiers of `conditionsMap`. -/
inductive Condition where
  | uncommented
  | unliked
  | text
  | images
  | videos
  | containsStrings
deriving DecidableEq

/-- An element of `options.linkedConditions`: either a bare condition id or an
inner array of condition ids. -/
inductive LinkedElem where
  | single (c : Condition)
  | group (g : List Condition)
deriving DecidableEq

/-- The `remove` section of the configuration. -/
structure RemoveConfig where
  uncommented : Bool
  unliked : Bool
  text : Bool
  images : Bool
  videos : Bool
  containsStrings : List StringPattern
deriving DecidableEq

/-- The `options` section of the configuration. -/
structure OptionsConfig where
  targetLoadCount : Nat
  caseSensitive : Bool
  reversedConditions : Bool
  linkedConditions : List LinkedElem
deriving DecidableEq

/-- The configuration object (the `runOn` section is url gating only and is
not consumed by the evaluator or the pagination loop). -/
structure Config where
  remove : RemoveConfig
  options : OptionsConfig
deriving DecidableEq

/-! ### Primitive predicates (`ActivityHandler.shouldRemove*`) -/

/-- Entry has no reply-count indicator. -/
def shouldRemoveUncommented (node : Node) : Bool := !node.hasReplyCount

/-- Entry has no like-count indicator. -/
def shouldRemoveUnliked (node : Node) : Bool := !node.hasLikeCount

/-- Entry contains an image element. -/
def shouldRemoveImage (node : Node) : Bool := node.hasImage

/-- Entry contains a video element or an embedded video-service marker. -/
def shouldRemoveVideo (node : Node) : Bool :=
  node.hasVideoElement || node.hasYouTubeSpan

/-- Entry is classified as text or message content and has no media. -/
def shouldRemoveText (node : Node) : Bool :=
  (node.classActivityText || node.classActivityMessage)
    && !(shouldRemoveImage node || shouldRemoveVideo node)

/-! ### The string condition (`ActivityHandler.shouldRemoveStrings`) -/

/-- One level of `Array.prototype.flat` applied to `containsStrings`. -/
def patternFlat (ps : List StringPattern) : List String :=
  ps.flatMap fun p =>
    match p with
    | .str s => [s]
    | .group g => g

/-- Executable substring occurrence on character lists, modelling
`String.prototype.includes`. -/
def includesList (pat : List Char) : List Char → Bool
  | [] => pat.isEmpty
  | c :: rest => List.isPrefixOf pat (c :: rest) || includesList pat rest

/-- Substring test of the source, with the case fold applied to both sides
when `caseSensitive` is false. -/
def containsString (cfg : Config) (nodeText s : String) : Bool :=
  if !cfg.options.caseSensitive then
    includesList s.toLower.toList nodeText.toLower.toList
  else
    includesList s.toList nodeText.toList

/-- The `checkStrings` closure: an inner array requires every string of it to
occur, a bare string requires that one string to occur. -/
def checkStrings (cfg : Config) (node : Node) : StringPattern → Bool
  | .group g => g.all fun s => containsString cfg node.textContent s
  | .str s => containsString cfg node.textContent s

/-- The string condition: false when the flattened pattern set is empty,
otherwise any-of over the elements, negated in reversed mode. -/
def shouldRemoveStrings (cfg : Config) (node : Node) (reversed : Bool) : Bool :=
  let cs := cfg.remove.containsStrings
  if (patternFlat cs).isEmpty then false
  else if reversed then !(cs.any (checkStrings cfg node))
  else cs.any (checkStrings cfg node)

/-! ### The condition map (`ActivityHandler.conditionsMap`) -/

/-- The predicate stored in `conditionsMap` for a condition id: primitive
predicates are negated when `reverse` is set, the string condition receives
the flag unchanged. -/
def conditionPredicate (cfg : Config) (c : Condition) (node : Node)
    (reverse : Bool) : Bool :=
  match c with
  | .uncommented =>
      if reverse then !(shouldRemoveUncommented node) else shouldRemoveUncommented node
  | .unliked =>
      if reverse then !(shouldRemoveUnliked node) else shouldRemoveUnliked node
  | .text =>
      if reverse then !(shouldRemoveText node) else shouldRemoveText node
  | .images =>
      if reverse then !(shouldRemoveImage node) else shouldRemoveImage node
  | .videos =>
      if reverse then !(shouldRemoveVideo node) else shouldRemoveVideo node
  | .containsStrings => shouldRemoveStrings cfg node reverse

/-- Insertion order of `conditionsMap`. -/
def conditionKeys : List Condition :=
  [.uncommented, .unliked, .text, .images, .videos, .containsStrings]

/-- The enablement test of `shouldRemoveNode`: the option is the literal
`true`, or it is an array with positive length (only `containsStrings` is an
array). -/
def conditionEnabled (r : RemoveConfig) : Condition → Bool
  | .uncommented => r.uncommented
  | .unliked => r.unliked
  | .text => r.text
  | .images => r.images
  | .videos => r.videos
  | .containsStrings => !r.containsStrings.isEmpty

/-! ### Linked conditions (`ActivityHandler.shouldRemoveByLinkedConditions`) -/

/-- One level of `Array.prototype.flat` applied to `linkedConditions`, used by
the `skipChecking` closure. -/
def linkedFlat (l : List LinkedElem) : List Condition :=
  l.flatMap fun e =>
    match e with
    | .single c => [c]
    | .group g => g

/-- Short-circuiting `Array.prototype.some` where evaluating an element may
throw (`none`). -/
def someM (f : α → Option Bool) : List α → Option Bool
  | [] => some false
  | x :: xs => do
    let b ← f x
    if b then pure true else someM f xs

/-- Short-circuiting `Array.prototype.every` where evaluating an element may
throw (`none`). -/
def everyM (f : α → Option Bool) : List α → Option Bool
  | [] => some true
  | x :: xs => do
    let b ← f x
    if b then everyM f xs else pure false

/-- Lookup of a linked-list element in `conditionsMap`: a bare id resolves to
its predicate; an inner array is not a key of the map, so the lookup yields
`undefined` and invoking it throws (`none`). -/
def lookupPredicate (cfg : Config) (node : Node) (reversed : Bool) :
    LinkedElem → Option Bool
  | .single c => some (conditionPredicate cfg c node reversed)
  | .group _ => none

/-- The `checkConditions` closure: any-of in reversed mode, all-of otherwise,
over `conditionsMap` lookups of the list elements. -/
def checkConditions (cfg : Config) (node : Node) (condList : List LinkedElem)
    (reversed : Bool) : Option Bool :=
  if reversed then someM (lookupPredicate cfg node reversed) condList
  else everyM (lookupPredicate cfg node reversed) condList

/-- Viewing one element of the normalized outer list as a condition list, as
`checkConditions` receives it: an inner array gives its members; a bare
string has no `.some`/`.every` method, so iterating it throws (`none`). -/
def elemConditionList : LinkedElem → Option (List LinkedElem)
  | .group g => some (g.map LinkedElem.single)
  | .single _ => none

/-- The linked-group check: an empty `linkedConditions` never matches; a list
whose first element is an inner array is taken as a list of groups, otherwise
the whole list is wrapped as one group. -/
def shouldRemoveByLinkedConditions (cfg : Config) (node : Node) : Option Bool :=
  let lc := cfg.options.linkedConditions
  let rev := cfg.options.reversedConditions
  match lc with
  | [] => some false
  | LinkedElem.group _ :: _ =>
      someM (fun e => do
        let l ← elemConditionList e
        checkConditions cfg node l rev) lc
  | LinkedElem.single _ :: _ => checkConditions cfg node lc rev

/-! ### The decision (`ActivityHandler.shouldRemoveNode`) -/

/-- The `skipChecking` closure: the condition id occurs in the one-level
flattening of `linkedConditions`. -/
def skipChecking (cfg : Config) (c : Condition) : Bool :=
  (linkedFlat cfg.options.linkedConditions).contains c

/-- The reversed independent composition of `shouldRemoveNode`: build the
`toBeRemoved` list of predicate values of the enabled, unclaimed conditions,
then require `true` to occur and `false` not to occur in it. -/
def independentReversed (cfg : Config) (node : Node) : Bool :=
  let toBeRemoved :=
    (conditionKeys.filter fun c =>
        conditionEnabled cfg.remove c && !skipChecking cfg c).map
      fun c => conditionPredicate cfg c node cfg.options.reversedConditions
  toBeRemoved.contains true && !(toBeRemoved.contains false)

/-- The non-reversed independent composition of `shouldRemoveNode`: any
enabled, unclaimed condition with a true predicate. -/
def independentAny (cfg : Config) (node : Node) : Bool :=
  conditionKeys.any fun c =>
    conditionEnabled cfg.remove c && !skipChecking cfg c
      && conditionPredicate cfg c node cfg.options.reversedConditions

/-- The per-entry decision: linked groups first (propagating an exception),
then either the reversed composition (all participating predicates true and
at least one) or the plain any-of over participating predicates. -/
def shouldRemoveNode (cfg : Config) (node : Node) : Option Bool := do
  let linked ← shouldRemoveByLinkedConditions cfg node
  if linked then pure true
  else if cfg.options.reversedConditions then pure (independentReversed cfg node)
  else pure (independentAny cfg node)

/-- The `validateLinkedConditions` check of `ConfigValidator`: every element
of the one-level flattening of `linkedConditions` is an allowed condition id
(in this typed model the membership test is the whole check). -/
def validateLinkedConditions (cfg : Config) : Bool :=
  (linkedFlat cfg.options.linkedConditions).all fun c => conditionKeys.contains c

/-! ### Pagination controller (`UIHandler`) -/

/-- The `UIHandler` state: the user-intent flag, the cancel affordance
(`none` when not yet created, otherwise its visibility), and the held
reference to the current load-more control (identified by a number). -/
structure UIState where
  userPressed : Bool
  cancel : Option Bool
  loadMore : Option Nat
deriving DecidableEq

/-- The constructor of `UIHandler`: `userPressed` starts `true`, no cancel
affordance, no held control. -/
def UIState.init : UIState :=
  { userPressed := true, cancel := none, loadMore := none }

/-- The `showCancel` operation: create the affordance if absent, otherwise
make it visible; either way it is visible afterwards. -/
def showCancel (ui : UIState) : UIState :=
  { ui with cancel := some true }

/-- The `hideCancel` operation: hide the affordance if it was created. -/
def hideCancel (ui : UIState) : UIState :=
  match ui.cancel with
  | some _ => { ui with cancel := some false }
  | none => ui

/-- The effect of the click responder attached in `setLoadMore`: the user (or
a programmatic `click()`) pressing the control sets the flag and shows the
cancel affordance. The passive-scroll loop it also starts has no modelled
state. -/
def loadMoreListener (ui : UIState) : UIState :=
  showCancel { ui with userPressed := true }

/-- The `setLoadMore` operation: record the added control as the held
reference (and attach the click responder to it). -/
def setLoadMore (ui : UIState) (button : Nat) : UIState :=
  { ui with loadMore := some button }

/-- The `clickLoadMore` operation: when a control is held, `click()` it
(which fires the attached responder synchronously) and clear the reference;
the second component reports which control was invoked programmatically. -/
def clickLoadMore (ui : UIState) : UIState × Option Nat :=
  match ui.loadMore with
  | some b => ({ loadMoreListener ui with loadMore := none }, some b)
  | none => (ui, none)

/-- The `UIHandler.resetState` operation: clear the flag and hide the cancel
affordance (Idle). -/
def UIState.resetState (ui : UIState) : UIState :=
  hideCancel { ui with userPressed := false }

/-- The cancel-button click responder: clear the flag and hide the button. -/
def cancelListener (ui : UIState) : UIState :=
  hideCancel { ui with userPressed := false }

/-! ### Coordinator (`MainApp`) -/

/-- The joint state of `ActivityHandler.currentLoadCount` and the
`UIHandler`. -/
structure AppState where
  currentLoadCount : Nat
  ui : UIState
deriving DecidableEq

/-- The initial state: count 0 (ActivityHandler constructor) and the fresh
`UIHandler`. -/
def AppState.init : AppState :=
  { currentLoadCount := 0, ui := UIState.init }

/-- The `ActivityHandler.resetState` operation on its state. -/
def resetLoadCount (_count : Nat) : Nat := 0

/-- The `removeEntry` operation: decide, then either remove the node (count
unchanged, second component true) or count it as survived. An exception of
the decision propagates. -/
def removeEntry (cfg : Config) (count : Nat) (node : Node) :
    Option (Nat × Bool) := do
  let b ← shouldRemoveNode cfg node
  if b then pure (count, true) else pure (count + 1, false)

/-- A node delivered by the mutation observer: an activity entry, a load-more
control, or anything else. -/
inductive BatchNode where
  | activity (node : Node)
  | button (id : Nat)
  | other
deriving DecidableEq

/-- The `handleAddedNode` operation: route entries to `removeEntry` and
controls to `setLoadMore`. -/
def handleAddedNode (cfg : Config) (s : AppState) : BatchNode → Option AppState
  | .activity n => do
      let r ← removeEntry cfg s.currentLoadCount n
      pure { s with currentLoadCount := r.1 }
  | .button b => pure { s with ui := setLoadMore s.ui b }
  | .other => pure s

/-- Processing the added nodes of a batch in order; an exception aborts the
rest of the batch, as an uncaught throw does in the observer callback. -/
def processNodes (cfg : Config) : AppState → List BatchNode → Option AppState
  | s, [] => pure s
  | s, n :: ns => do
      let s1 ← handleAddedNode cfg s n
      processNodes cfg s1 ns

/-- The `loadMoreOrReset` decision: auto-continue when the survived count is
below the target and the flag is set, otherwise reset both components. The
second component reports the programmatic click, if any. -/
def loadMoreOrReset (cfg : Config) (s : AppState) : AppState × Option Nat :=
  if s.currentLoadCount < cfg.options.targetLoadCount ∧ s.ui.userPressed = true then
    let r := clickLoadMore s.ui
    ({ s with ui := r.1 }, r.2)
  else
    ({ currentLoadCount := resetLoadCount s.currentLoadCount,
       ui := s.ui.resetState }, none)

/-- The `observeMutations` callback on an allowed url: handle every added
node, then run `loadMoreOrReset`. -/
def observeMutations (cfg : Config) (s : AppState) (nodes : List BatchNode) :
    Option (AppState × Option Nat) := do
  let s1 ← processNodes cfg s nodes
  pure (loadMoreOrReset cfg s1)

/-- The external events the two state-holding components react to. -/
inductive Ev where
  | batch (nodes : List BatchNode)
  | userClick
  | cancelClick
deriving DecidableEq

/-- One step of the event loop: a mutation batch, a user click on a load-more
control (firing the responder attached by `setLoadMore`), or a click on the
cancel affordance. -/
def step (cfg : Config) (s : AppState) : Ev → Option (AppState × Option Nat)
  | .batch nodes => observeMutations cfg s nodes
  | .userClick => pure ({ s with ui := loadMoreListener s.ui }, none)
  | .cancelClick => pure ({ s with ui := cancelListener s.ui }, none)

/-! ### Specification-side definitions

The following definitions are written from the wording of the specification
and the claims, to be compared with the source-side functions above. -/

/-- A linked-list element is a bare condition id. -/
def isSingleElem : LinkedElem → Bool
  | .single _ => true
  | .group _ => false

/-- The shapes of `linkedConditions` on which every element is treated alike:
all bare ids, or all inner arrays. -/
def homogeneousShape (l : List LinkedElem) : Bool :=
  l.all isSingleElem || l.all fun e => !isSingleElem e

/-- The member list of one normalized linked element. -/
def groupOf : LinkedElem → List Condition
  | .single c => [c]
  | .group g => g

/-- The linked groups of a configuration, as the specification describes
them: a list of inner arrays is a list of groups, while an unwrapped list of
bare ids forms a single flat group; empty input has no groups. -/
def linkedGroups : List LinkedElem → List (List Condition)
  | [] => []
  | l@(LinkedElem.group _ :: _) => l.map groupOf
  | l@(LinkedElem.single _ :: _) => [linkedFlat l]

/-- The raw (non-reversed) predicate of a condition id on an entry. -/
def rawPredicate (cfg : Config) (c : Condition) (node : Node) : Bool :=
  match c with
  | .uncommented => shouldRemoveUncommented node
  | .unliked => shouldRemoveUnliked node
  | .text => shouldRemoveText node
  | .images => shouldRemoveImage node
  | .videos => shouldRemoveVideo node
  | .containsStrings => shouldRemoveStrings cfg node false

/-- Claim C1, specification side: some enabled condition not claimed by any
linked group has its raw predicate true, or some linked group has all of its
member predicates true. -/
def specRemoveNonReversed (cfg : Config) (node : Node) : Bool :=
  (conditionKeys.any fun c =>
     conditionEnabled cfg.remove c && !skipChecking cfg c && rawPredicate cfg c node)
  || (linkedGroups cfg.options.linkedConditions).any fun g =>
       g.all fun c => rawPredicate cfg c node

/-- The pattern set normalized to groups: a bare string is a singleton
group. -/
def normalizedGroups (ps : List StringPattern) : List (List String) :=
  ps.map fun p =>
    match p with
    | .str s => [s]
    | .group g => g

/-- A pattern group matches the entry when every string in it occurs in the
text of the entry. -/
def groupMatches (cfg : Config) (node : Node) (g : List String) : Bool :=
  g.all fun s => containsString cfg node.textContent s

/-- Claims C2 and C5, specification side: value of the string condition as
the claims word it (no empty-pattern-set guard) — non-reversed true iff some
group matches, reversed true iff no group matches. -/
def specStringValue (cfg : Config) (node : Node) (reversed : Bool) : Bool :=
  let m := (normalizedGroups cfg.remove.containsStrings).any (groupMatches cfg node)
  if reversed then !m else m

/-- Claim C2, specification side: the value of one condition under reversal
as the claim words it — primitive predicates negated, the string condition
true iff no pattern group matches. -/
def specCondReversed (cfg : Config) (c : Condition) (node : Node) : Bool :=
  match c with
  | .containsStrings => specStringValue cfg node true
  | _ => !(rawPredicate cfg c node)

/-- The amended value of one condition under reversal: as `specCondReversed`,
except that the string condition additionally requires a non-empty flattened
pattern set, as the source computes it. -/
def specCondReversedAmended (cfg : Config) (c : Condition) (node : Node) : Bool :=
  match c with
  | .containsStrings =>
      !(patternFlat cfg.remove.containsStrings).isEmpty && specStringValue cfg node true
  | _ => !(rawPredicate cfg c node)

/-- The conditions that participate in independent evaluation: enabled and
not claimed by any linked group. -/
def participatingConditions (cfg : Config) : List Condition :=
  conditionKeys.filter fun c => conditionEnabled cfg.remove c && !skipChecking cfg c

/-- Claim C2, specification side, as the claim states it: some linked group
has a member true under reversal, or the participation set is non-empty and
every participating condition is true under reversal. -/
def specRemoveReversed (cfg : Config) (node : Node) : Bool :=
  ((linkedGroups cfg.options.linkedConditions).any fun g =>
     g.any fun c => specCondReversed cfg c node)
  || (!(participatingConditions cfg).isEmpty
        && (participatingConditions cfg).all fun c => specCondReversed cfg c node)

/-- Claim C2 as amended: the same composition with the amended string
value. -/
def specRemoveReversedAmended (cfg : Config) (node : Node) : Bool :=
  ((linkedGroups cfg.options.linkedConditions).any fun g =>
     g.any fun c => specCondReversedAmended cfg c node)
  || (!(participatingConditions cfg).isEmpty
        && (participatingConditions cfg).all fun c => specCondReversedAmended cfg c node)

/-- An entry with replies and likes, no classification classes, no media and
empty text, used as concrete input. -/
def plainNode : Node :=
  { textContent := "", hasReplyCount := true, hasLikeCount := true,
    classActivityText := false, classActivityMessage := false, hasImage := false,
    hasVideoElement := false, hasYouTubeSpan := false }

/-- A `remove` section with every condition disabled. -/
def removeNone : RemoveConfig :=
  { uncommented := false, unliked := false, text := false, images := false,
    videos := false, containsStrings := [] }

/-- Reversed configuration whose single linked condition is the string
condition while the configured pattern set is empty. -/
def cexConfigC2 : Config :=
  { remove := removeNone,
    options := { targetLoadCount := 1, caseSensitive := false,
                 reversedConditions := true,
                 linkedConditions := [LinkedElem.single Condition.containsStrings] } }

/-- Configuration with `containsStrings` holding one empty inner group. -/
def cexConfigC5 : Config :=
  { remove := { removeNone with containsStrings := [StringPattern.group []] },
    options := { targetLoadCount := 1, caseSensitive := false,
                 reversedConditions := false, linkedConditions := [] } }

/-- Mixed-shape `linkedConditions`: a bare id followed by an inner array.
This passes `validateLinkedConditions` (flattening yields only allowed ids)
but crashes the evaluator. -/
def bugConfigC4 : Config :=
  { remove := removeNone,
    options := { targetLoadCount := 1, caseSensitive := false,
                 reversedConditions := false,
                 linkedConditions := [LinkedElem.single Condition.uncommented,
                                      LinkedElem.group [Condition.unliked]] } }

/-- An entry with no reply-count indicator. -/
def uncommentedNode : Node :=
  { plainNode with hasReplyCount := false }

/-- Configuration whose `linkedConditions` is one empty inner group,
non-reversed. -/
def cexConfigC9 : Config :=
  { remove := removeNone,
    options := { targetLoadCount := 1, caseSensitive := false,
                 reversedConditions := false,
                 linkedConditions := [LinkedElem.group []] } }

/-- Configuration whose `linkedConditions` is one empty inner group,
reversed. -/
def cexConfigC9r : Config :=
  { remove := removeNone,
    options := { targetLoadCount := 1, caseSensitive := false,
                 reversedConditions := true,
                 linkedConditions := [LinkedElem.group []] } }

/-- A plain configuration with target count 2, used as concrete input for the
pagination claims. -/
def c3Config : Config :=
  { remove := removeNone,
    options := { targetLoadCount := 2, caseSensitive := false,
                 reversedConditions := false, linkedConditions := [] } }

/-- A state below the target with the user-intent flag set. -/
def c3GoState : AppState :=
  { currentLoadCount := 0,
    ui := { userPressed := true, cancel := none, loadMore := some 7 } }

/-- A state with the user-intent flag clear and a visible cancel
affordance. -/
def c3ResetState : AppState :=
  { currentLoadCount := 5,
    ui := { userPressed := false, cancel := some true, loadMore := some 7 } }

/-! ### Helper lemmas -/

/-- Evaluating `someM` over elements that each return normally is `some` of
the boolean any-of. -/
theorem someM_congr (g : α → Option Bool) (f : α → Bool) :
    ∀ l : List α, (∀ x ∈ l, g x = some (f x)) → someM g l = some (l.any f) := by
  intro l
  induction l with
  | nil => intro _; rfl
  | cons x xs ih =>
    intro h
    have hx := h x (List.mem_cons_self x xs)
    have hxs := fun y hy => h y (List.mem_cons_of_mem x hy)
    cases hfx : f x <;>
      simp [someM, hx, hfx, ih hxs, List.any_cons]

/-- Evaluating `everyM` over elements that each return normally is `some` of
the boolean all-of. -/
theorem everyM_congr (g : α → Option Bool) (f : α → Bool) :
    ∀ l : List α, (∀ x ∈ l, g x = some (f x)) → everyM g l = some (l.all f) := by
  intro l
  induction l with
  | nil => intro _; rfl
  | cons x xs ih =>
    intro h
    have hx := h x (List.mem_cons_self x xs)
    have hxs := fun y hy => h y (List.mem_cons_of_mem x hy)
    cases hfx : f x <;>
      simp [everyM, hx, hfx, ih hxs, List.all_cons]

/-- With the reverse flag clear, the stored predicate is the raw predicate. -/
theorem conditionPredicate_not_reversed (cfg : Config) (c : Condition) (node : Node) :
    conditionPredicate cfg c node false = rawPredicate cfg c node := by
  cases c <;> rfl

/-- Any-of over `checkStrings` agrees with any-of group matching over the
normalized groups. -/
theorem any_checkStrings_eq (cfg : Config) (node : Node) (ps : List StringPattern) :
    ps.any (checkStrings cfg node) = (normalizedGroups ps).any (groupMatches cfg node) := by
  induction ps with
  | nil => rfl
  | cons p ps ih =>
    cases p <;> simp [normalizedGroups, checkStrings, groupMatches, List.any_cons, ih]

/-- Flattening distributes over cons as the member list of the head followed
by the flattening of the tail. -/
theorem linkedFlat_cons (e : LinkedElem) (l : List LinkedElem) :
    linkedFlat (e :: l) = groupOf e ++ linkedFlat l := by
  cases e <;> rfl

/-- All-of over the flattening is all-of of the per-element all-ofs. -/
theorem linkedFlat_all (p : Condition → Bool) :
    ∀ l : List LinkedElem, (linkedFlat l).all p = l.all fun e => (groupOf e).all p := by
  intro l
  induction l with
  | nil => rfl
  | cons e l ih => rw [linkedFlat_cons, List.all_append, List.all_cons, ih]

/-- Any-of over the flattening is any-of of the per-element any-ofs. -/
theorem linkedFlat_any (p : Condition → Bool) :
    ∀ l : List LinkedElem, (linkedFlat l).any p = l.any fun e => (groupOf e).any p := by
  intro l
  induction l with
  | nil => rfl
  | cons e l ih => rw [linkedFlat_cons, List.any_append, List.any_cons, ih]

/-- Any-of over the mapped member lists is any-of over the elements. -/
theorem any_map_groupOf (p : List Condition → Bool) (l : List LinkedElem) :
    (l.map groupOf).any p = l.any fun e => p (groupOf e) := by
  induction l with
  | nil => rfl
  | cons e l ih => simp [List.any_cons, ih]

/-- Flattening a list of bare ids recovers the ids. -/
theorem linkedFlat_map_single (g : List Condition) :
    linkedFlat (g.map LinkedElem.single) = g := by
  induction g with
  | nil => rfl
  | cons c g ih => simp [linkedFlat] at ih ⊢; exact ih

/-- The `checkConditions` closure on a list of bare ids, non-reversed:
all-of of the stored predicates of the flattened ids. -/
theorem checkConditions_singles_false (cfg : Config) (node : Node)
    (l : List LinkedElem) (h : ∀ x ∈ l, isSingleElem x = true) :
    checkConditions cfg node l false =
      some ((linkedFlat l).all fun c => conditionPredicate cfg c node false) := by
  have hpt : ∀ x ∈ l, lookupPredicate cfg node false x =
      some ((groupOf x).all fun c => conditionPredicate cfg c node false) := by
    intro x hx
    rcases x with c | g
    · simp [lookupPredicate, groupOf]
    · exact absurd (h _ hx) (by simp [isSingleElem])
  calc checkConditions cfg node l false
      = everyM (lookupPredicate cfg node false) l := by simp [checkConditions]
    _ = some (l.all fun x => (groupOf x).all fun c => conditionPredicate cfg c node false) :=
        everyM_congr _ _ l hpt
    _ = some ((linkedFlat l).all fun c => conditionPredicate cfg c node false) := by
        rw [linkedFlat_all]

/-- The `checkConditions` closure on a list of bare ids, reversed: any-of of
the stored predicates of the flattened ids. -/
theorem checkConditions_singles_true (cfg : Config) (node : Node)
    (l : List LinkedElem) (h : ∀ x ∈ l, isSingleElem x = true) :
    checkConditions cfg node l true =
      some ((linkedFlat l).any fun c => conditionPredicate cfg c node true) := by
  have hpt : ∀ x ∈ l, lookupPredicate cfg node true x =
      some ((groupOf x).any fun c => conditionPredicate cfg c node true) := by
    intro x hx
    rcases x with c | g
    · simp [lookupPredicate, groupOf]
    · exact absurd (h _ hx) (by simp [isSingleElem])
  calc checkConditions cfg node l true
      = someM (lookupPredicate cfg node true) l := by simp [checkConditions]
    _ = some (l.any fun x => (groupOf x).any fun c => conditionPredicate cfg c node true) :=
        someM_congr _ _ l hpt
    _ = some ((linkedFlat l).any fun c => conditionPredicate cfg c node true) := by
        rw [linkedFlat_any]

/-- Outer evaluation in the list-of-groups shape, non-reversed: any group
with all member predicates true. -/
theorem linkedEval_groups_false (cfg : Config) (node : Node) (l : List LinkedElem)
    (h : ∀ x ∈ l, isSingleElem x = false) :
    someM (fun e => do
        let l2 ← elemConditionList e
        checkConditions cfg node l2 false) l =
      some (l.any fun e => (groupOf e).all fun c => conditionPredicate cfg c node false) := by
  apply someM_congr
  intro x hx
  rcases x with c | g
  · exact absurd (h _ hx) (by simp [isSingleElem])
  · have hs : ∀ y ∈ g.map LinkedElem.single, isSingleElem y = true := by
      intro y hy
      rcases List.mem_map.mp hy with ⟨c, _, rfl⟩
      rfl
    show checkConditions cfg node (g.map LinkedElem.single) false = _
    rw [checkConditions_singles_false cfg node _ hs, linkedFlat_map_single]
    rfl

/-- Outer evaluation in the list-of-groups shape, reversed: any group with
some member predicate true. -/
theorem linkedEval_groups_true (cfg : Config) (node : Node) (l : List LinkedElem)
    (h : ∀ x ∈ l, isSingleElem x = false) :
    someM (fun e => do
        let l2 ← elemConditionList e
        checkConditions cfg node l2 true) l =
      some (l.any fun e => (groupOf e).any fun c => conditionPredicate cfg c node true) := by
  apply someM_congr
  intro x hx
  rcases x with c | g
  · exact absurd (h _ hx) (by simp [isSingleElem])
  · have hs : ∀ y ∈ g.map LinkedElem.single, isSingleElem y = true := by
      intro y hy
      rcases List.mem_map.mp hy with ⟨c, _, rfl⟩
      rfl
    show checkConditions cfg node (g.map LinkedElem.single) true = _
    rw [checkConditions_singles_true cfg node _ hs, linkedFlat_map_single]
    rfl

/-- On a homogeneous `linkedConditions`, the non-reversed linked check equals
any-of over the linked groups of all-of over their members. -/
theorem linked_spec_false (cfg : Config) (node : Node)
    (hrev : cfg.options.reversedConditions = false)
    (hug : homogeneousShape cfg.options.linkedConditions = true) :
    shouldRemoveByLinkedConditions cfg node =
      some ((linkedGroups cfg.options.linkedConditions).any fun g =>
        g.all fun c => conditionPredicate cfg c node false) := by
  rw [homogeneousShape] at hug
  rcases hlc : cfg.options.linkedConditions with _ | ⟨e, rest⟩
  · simp [shouldRemoveByLinkedConditions, hlc, linkedGroups]
  · rw [hlc] at hug
    cases e with
    | single c0 =>
      have hall : ∀ x ∈ LinkedElem.single c0 :: rest, isSingleElem x = true := by
        rw [Bool.or_eq_true] at hug
        rcases hug with h1 | h2
        · exact fun x hx => List.all_eq_true.mp h1 x hx
        · exact absurd (List.all_eq_true.mp h2 _ (List.mem_cons_self _ _))
            (by simp [isSingleElem])
      simp only [shouldRemoveByLinkedConditions, hlc, hrev]
      rw [checkConditions_singles_false cfg node _ hall]
      simp [linkedGroups]
    | group g0 =>
      have hall : ∀ x ∈ LinkedElem.group g0 :: rest, isSingleElem x = false := by
        rw [Bool.or_eq_true] at hug
        rcases hug with h1 | h2
        · exact absurd (List.all_eq_true.mp h1 _ (List.mem_cons_self _ _)) (by simp [isSingleElem])
        · intro x hx
          have := List.all_eq_true.mp h2 x hx
          simpa using this
      simp only [shouldRemoveByLinkedConditions, hlc, hrev]
      rw [linkedEval_groups_false cfg node _ hall]
      simp only [linkedGroups, any_map_groupOf]

/-- On a homogeneous `linkedConditions`, the reversed linked check equals
any-of over the linked groups of any-of over their members. -/
theorem linked_spec_true (cfg : Config) (node : Node)
    (hrev : cfg.options.reversedConditions = true)
    (hug : homogeneousShape cfg.options.linkedConditions = true) :
    shouldRemoveByLinkedConditions cfg node =
      some ((linkedGroups cfg.options.linkedConditions).any fun g =>
        g.any fun c => conditionPredicate cfg c node true) := by
  rw [homogeneousShape] at hug
  rcases hlc : cfg.options.linkedConditions with _ | ⟨e, rest⟩
  · simp [shouldRemoveByLinkedConditions, hlc, linkedGroups]
  · rw [hlc] at hug
    cases e with
    | single c0 =>
      have hall : ∀ x ∈ LinkedElem.single c0 :: rest, isSingleElem x = true := by
        rw [Bool.or_eq_true] at hug
        rcases hug with h1 | h2
        · exact fun x hx => List.all_eq_true.mp h1 x hx
        · exact absurd (List.all_eq_true.mp h2 _ (List.mem_cons_self _ _))
            (by simp [isSingleElem])
      simp only [shouldRemoveByLinkedConditions, hlc, hrev]
      rw [checkConditions_singles_true cfg node _ hall]
      simp [linkedGroups]
    | group g0 =>
      have hall : ∀ x ∈ LinkedElem.group g0 :: rest, isSingleElem x = false := by
        rw [Bool.or_eq_true] at hug
        rcases hug with h1 | h2
        · exact absurd (List.all_eq_true.mp h1 _ (List.mem_cons_self _ _)) (by simp [isSingleElem])
        · intro x hx
          have := List.all_eq_true.mp h2 x hx
          simpa using this
      simp only [shouldRemoveByLinkedConditions, hlc, hrev]
      rw [linkedEval_groups_true cfg node _ hall]
      simp only [linkedGroups, any_map_groupOf]

/-- When the linked check returns normally, the decision is its value or-ed
with the branch the reversed flag selects. -/
theorem shouldRemoveNode_some (cfg : Config) (node : Node) (L : Bool)
    (h : shouldRemoveByLinkedConditions cfg node = some L) :
    shouldRemoveNode cfg node =
      some (L || if cfg.options.reversedConditions then independentReversed cfg node
                 else independentAny cfg node) := by
  cases L
  · cases hr : cfg.options.reversedConditions <;> simp [shouldRemoveNode, h, hr]
  · simp [shouldRemoveNode, h]

/-- Claim C1: for non-reversed configurations with well-formed (homogeneous)
linked conditions, the decision removes an entry exactly when some enabled
condition not claimed by a linked group has its raw predicate true, or some
linked group has all of its member raw predicates true. -/
theorem C1_nonreversed_decision (cfg : Config) (node : Node)
    (hrev : cfg.options.reversedConditions = false)
    (hug : homogeneousShape cfg.options.linkedConditions = true) :
    shouldRemoveNode cfg node = some (specRemoveNonReversed cfg node) := by
  have hlinked := linked_spec_false cfg node hrev hug
  simp only [conditionPredicate_not_reversed] at hlinked
  rw [shouldRemoveNode_some cfg node _ hlinked, hrev]
  have h2 : independentAny cfg node =
      (conditionKeys.any fun c =>
        conditionEnabled cfg.remove c && !skipChecking cfg c
          && rawPredicate cfg c node) := by
    simp only [independentAny, hrev, conditionPredicate_not_reversed]
  simp only [Bool.false_eq_true, if_false, h2, specRemoveNonReversed]
  rw [Bool.or_comm]

/-- Claim C1 witness: the theorem applied to a concrete non-reversed
configuration (remove uncommented entries) and an entry with no replies. -/
theorem C1_nonreversed_decision_witness :
    shouldRemoveNode
      { remove := { uncommented := true, unliked := false, text := false,
                    images := false, videos := false, containsStrings := [] },
        options := { targetLoadCount := 2, caseSensitive := false,
                     reversedConditions := false, linkedConditions := [] } }
      { textContent := "", hasReplyCount := false, hasLikeCount := true,
        classActivityText := false, classActivityMessage := false, hasImage := false,
        hasVideoElement := false, hasYouTubeSpan := false } =
      some (specRemoveNonReversed
      { remove := { uncommented := true, unliked := false, text := false,
                    images := false, videos := false, containsStrings := [] },
        options := { targetLoadCount := 2, caseSensitive := false,
                     reversedConditions := false, linkedConditions := [] } }
      { textContent := "", hasReplyCount := false, hasLikeCount := true,
        classActivityText := false, classActivityMessage := false, hasImage := false,
        hasVideoElement := false, hasYouTubeSpan := false }) :=
  C1_nonreversed_decision _ _ rfl rfl

/-- With the reverse flag set, the stored predicate is the amended reversed
value: primitives negated, the string condition requiring a non-empty
flattened pattern set and no matching group. -/
theorem conditionPredicate_reversed (cfg : Config) (c : Condition) (node : Node) :
    conditionPredicate cfg c node true = specCondReversedAmended cfg c node := by
  cases c
  case containsStrings =>
    show shouldRemoveStrings cfg node true = _
    cases hE : (patternFlat cfg.remove.containsStrings).isEmpty <;>
      simp [shouldRemoveStrings, hE, specCondReversedAmended, specStringValue,
        any_checkStrings_eq]
  all_goals rfl

/-- Membership of `true` in the mapped list is the boolean any-of. -/
theorem contains_true_map (l : List α) (p : α → Bool) :
    (l.map p).contains true = l.any p := by
  induction l with
  | nil => rfl
  | cons a l ih =>
    rw [List.map_cons, List.contains_cons, ih, List.any_cons]
    cases p a <;> rfl

/-- Membership of `false` in the mapped list is the negated boolean all-of. -/
theorem contains_false_map (l : List α) (p : α → Bool) :
    (l.map p).contains false = !(l.all p) := by
  induction l with
  | nil => rfl
  | cons a l ih =>
    rw [List.map_cons, List.contains_cons, ih, List.all_cons]
    cases p a <;> rfl

/-- The reversed composition of the source (`includes(true)` and not
`includes(false)`) is: non-empty participation and all predicates true. -/
theorem removed_list_eq (l : List α) (p : α → Bool) :
    ((l.map p).contains true && !((l.map p).contains false))
      = (!l.isEmpty && l.all p) := by
  rw [contains_true_map, contains_false_map, Bool.not_not]
  cases l with
  | nil => rfl
  | cons a l =>
    rw [List.any_cons, List.all_cons]
    cases p a
    · simp only [Bool.false_or, Bool.false_and, Bool.and_false]
    · rfl

/-- Claim C2 as amended: for reversed configurations with homogeneous linked
conditions, the decision removes an entry exactly when some linked group has
a member true under reversal, or the participation set is non-empty and every
participating condition is true under reversal — where the string condition
under reversal is true iff its flattened pattern set is non-empty and no
pattern group matches. -/
theorem C2_reversed_decision_amended (cfg : Config) (node : Node)
    (hrev : cfg.options.reversedConditions = true)
    (hug : homogeneousShape cfg.options.linkedConditions = true) :
    shouldRemoveNode cfg node = some (specRemoveReversedAmended cfg node) := by
  have hlinked := linked_spec_true cfg node hrev hug
  simp only [conditionPredicate_reversed] at hlinked
  rw [shouldRemoveNode_some cfg node _ hlinked, hrev]
  have h2 : independentReversed cfg node =
      (!(participatingConditions cfg).isEmpty
        && (participatingConditions cfg).all fun c => specCondReversedAmended cfg c node) := by
    simp only [independentReversed, hrev, conditionPredicate_reversed,
      participatingConditions]
    exact removed_list_eq _ _
  simp only [if_true, h2, specRemoveReversedAmended]

/-- Claim C2 counterexample: with an empty pattern set inside a linked group,
the claim formula (string condition true under reversal iff no pattern group
matches, vacuously true here) says the entry is removed, but the source
evaluates the string condition to false and keeps the entry. -/
theorem C2_counterexample :
    shouldRemoveNode cexConfigC2 plainNode = some false
      ∧ specRemoveReversed cexConfigC2 plainNode = true := by
  constructor <;> rfl

/-- Claim C2 witness: the amended theorem applied to a reversed configuration
removing uncommented entries and an entry that has replies. -/
theorem C2_reversed_decision_amended_witness :
    shouldRemoveNode
      { remove := { removeNone with uncommented := true },
        options := { targetLoadCount := 2, caseSensitive := false,
                     reversedConditions := true, linkedConditions := [] } }
      plainNode =
      some (specRemoveReversedAmended
      { remove := { removeNone with uncommented := true },
        options := { targetLoadCount := 2, caseSensitive := false,
                     reversedConditions := true, linkedConditions := [] } }
      plainNode) :=
  C2_reversed_decision_amended _ _ rfl rfl

/-- Claim C5 as amended: the string condition is multi-group matching guarded
by a non-empty flattened pattern set — when the flattening is empty the
condition is false in both modes; otherwise non-reversed it is true iff some
normalized group matches and reversed it is true iff no group matches. -/
theorem C5_string_condition_amended (cfg : Config) (node : Node) (reversed : Bool) :
    shouldRemoveStrings cfg node reversed =
      (!(patternFlat cfg.remove.containsStrings).isEmpty
        && specStringValue cfg node reversed) := by
  cases hE : (patternFlat cfg.remove.containsStrings).isEmpty <;>
    cases reversed <;>
      simp [shouldRemoveStrings, hE, specStringValue, any_checkStrings_eq]

/-- Claim C5 counterexample: with the pattern set `[[]]` (one empty inner
group) and non-reversed mode, the claim formula says the condition is true
(the empty group matches vacuously), but the source evaluates it to false. -/
theorem C5_counterexample :
    shouldRemoveStrings cexConfigC5 plainNode false = false
      ∧ specStringValue cexConfigC5 plainNode false = true := by
  constructor <;> rfl

/-- Claim C6: when the flattened pattern set is empty, the string condition
evaluates to false for every entry in both modes, so it never causes a
removal. -/
theorem C6_empty_pattern_set (cfg : Config) (node : Node) (reversed : Bool)
    (h : patternFlat cfg.remove.containsStrings = []) :
    shouldRemoveStrings cfg node reversed = false := by
  simp [shouldRemoveStrings, h]

/-- Claim C6 witness: the theorem applied to the pattern set `[[]]` (empty
after flattening) in reversed mode. -/
theorem C6_empty_pattern_set_witness :
    shouldRemoveStrings cexConfigC5 plainNode true = false :=
  C6_empty_pattern_set cexConfigC5 plainNode true rfl

/-- Claim C4: a mixed `linkedConditions` (bare id first, inner array later)
is accepted by the validator, yet the decision path throws on an entry whose
first condition evaluates true — `conditionsMap.get` of the inner array is
`undefined` and invoking it raises a TypeError (modelled as `none`). -/
theorem C4_mixed_linked_throws :
    validateLinkedConditions bugConfigC4 = true
      ∧ shouldRemoveNode bugConfigC4 uncommentedNode = none := by
  constructor <;> rfl

/-- Claim C9: whenever `linkedConditions` is a list of inner arrays one of
which is empty, the non-reversed decision removes every entry (the all-of
test over no members holds vacuously), while under reversal the evaluation of
an empty member list never matches. -/
theorem C9_empty_group (cfg : Config) (node : Node)
    (hmem : LinkedElem.group [] ∈ cfg.options.linkedConditions)
    (hgr : ∀ x ∈ cfg.options.linkedConditions, isSingleElem x = false) :
    (cfg.options.reversedConditions = false → shouldRemoveNode cfg node = some true)
    ∧ (cfg.options.reversedConditions = true →
        checkConditions cfg node [] true = some false) := by
  constructor
  · intro hrev
    rcases hlc0 : cfg.options.linkedConditions with _ | ⟨e, rest⟩
    · rw [hlc0] at hmem
      cases hmem
    · rw [hlc0] at hmem hgr
      cases e with
      | single c0 =>
        exact absurd (hgr _ (List.mem_cons_self _ _)) (by simp [isSingleElem])
      | group g0 =>
        have hlinked : shouldRemoveByLinkedConditions cfg node = some true := by
          simp only [shouldRemoveByLinkedConditions, hlc0, hrev]
          rw [linkedEval_groups_false cfg node _ hgr]
          congr 1
          exact List.any_eq_true.mpr ⟨_, hmem, rfl⟩
        rw [shouldRemoveNode_some cfg node _ hlinked]
        simp
  · intro _
    rfl

/-- Claim C9 witness: the theorem applied to `linkedConditions = [[]]` — in
the non-reversed configuration every entry is removed, and in the reversed
configuration the empty group is evaluated to no match. -/
theorem C9_empty_group_witness :
    shouldRemoveNode cexConfigC9 plainNode = some true
      ∧ checkConditions cexConfigC9r plainNode [] true = some false :=
  ⟨(C9_empty_group cexConfigC9 plainNode (by decide) (by decide)).1 rfl,
   (C9_empty_group cexConfigC9r plainNode (by decide) (by decide)).2 rfl⟩

/-- Hiding the cancel affordance does not change the user-intent flag. -/
theorem hideCancel_userPressed (ui : UIState) :
    (hideCancel ui).userPressed = ui.userPressed := by
  cases hc : ui.cancel <;> simp [hideCancel, hc]

/-- After a controller reset the user-intent flag is clear. -/
theorem resetState_userPressed (ui : UIState) :
    (UIState.resetState ui).userPressed = false := by
  rw [UIState.resetState, hideCancel_userPressed]

/-- After a controller reset the cancel affordance is not visible. -/
theorem resetState_cancel_hidden (ui : UIState) :
    (UIState.resetState ui).cancel = none ∨ (UIState.resetState ui).cancel = some false := by
  cases hc : ui.cancel
  · left
    simp [UIState.resetState, hideCancel, hc]
  · right
    simp [UIState.resetState, hideCancel, hc]

/-- Claim C3: after a batch, the coordinator either auto-continues — when the
survived count is under the target and the user-intent flag is set, it
performs the `clickLoadMore` invocation of the pending control — or it fully
resets: the survived count becomes exactly 0 whatever it was, the flag is
cleared, the cancel affordance is hidden, and no programmatic click occurs. -/
theorem C3_load_more_or_reset (cfg : Config) (s : AppState) :
    (s.currentLoadCount < cfg.options.targetLoadCount ∧ s.ui.userPressed = true →
      loadMoreOrReset cfg s =
        ({ s with ui := (clickLoadMore s.ui).1 }, (clickLoadMore s.ui).2))
    ∧ (¬(s.currentLoadCount < cfg.options.targetLoadCount ∧ s.ui.userPressed = true) →
      (loadMoreOrReset cfg s).1.currentLoadCount = 0
        ∧ (loadMoreOrReset cfg s).1.ui.userPressed = false
        ∧ ((loadMoreOrReset cfg s).1.ui.cancel = none
            ∨ (loadMoreOrReset cfg s).1.ui.cancel = some false)
        ∧ (loadMoreOrReset cfg s).2 = none) := by
  constructor
  · intro h
    simp [loadMoreOrReset, h]
  · intro h
    simp only [loadMoreOrReset, if_neg h]
    exact ⟨rfl, resetState_userPressed s.ui, resetState_cancel_hidden s.ui, by trivial⟩

/-- Claim C3 witness: the theorem applied to a state with the flag clear
(full reset of a nonzero count) and to a state below target with the flag set
(auto-continue). -/
theorem C3_load_more_or_reset_witness :
    ((loadMoreOrReset c3Config c3ResetState).1.currentLoadCount = 0
      ∧ (loadMoreOrReset c3Config c3ResetState).1.ui.userPressed = false
      ∧ ((loadMoreOrReset c3Config c3ResetState).1.ui.cancel = none
          ∨ (loadMoreOrReset c3Config c3ResetState).1.ui.cancel = some false)
      ∧ (loadMoreOrReset c3Config c3ResetState).2 = none)
    ∧ loadMoreOrReset c3Config c3GoState =
        ({ c3GoState with ui := (clickLoadMore c3GoState.ui).1 },
          (clickLoadMore c3GoState.ui).2) :=
  ⟨(C3_load_more_or_reset c3Config c3ResetState).2 (by decide),
   (C3_load_more_or_reset c3Config c3GoState).1 (by decide)⟩

/-- Handling one added node never changes the user-intent flag: entries touch
only the survived count and controls only the held reference. -/
theorem handleAddedNode_userPressed (cfg : Config) (s : AppState) (n : BatchNode)
    (s2 : AppState) (h : handleAddedNode cfg s n = some s2) :
    s2.ui.userPressed = s.ui.userPressed := by
  cases n with
  | activity nd =>
    simp only [handleAddedNode] at h
    cases hr : removeEntry cfg s.currentLoadCount nd with
    | none => rw [hr] at h; simp at h
    | some r =>
      rw [hr] at h
      simp at h
      rw [← h]
  | button b =>
    simp only [handleAddedNode] at h
    simp at h
    rw [← h]
    rfl
  | other =>
    simp only [handleAddedNode] at h
    simp at h
    rw [← h]

/-- Processing the nodes of a batch never changes the user-intent flag. -/
theorem processNodes_userPressed (cfg : Config) :
    ∀ (nodes : List BatchNode) (s s1 : AppState),
      processNodes cfg s nodes = some s1 → s1.ui.userPressed = s.ui.userPressed := by
  intro nodes
  induction nodes with
  | nil =>
    intro s s1 h
    simp [processNodes] at h
    rw [← h]
  | cons n ns ih =>
    intro s s1 h
    simp only [processNodes] at h
    cases hn : handleAddedNode cfg s n with
    | none => rw [hn] at h; simp at h
    | some s2 =>
      rw [hn] at h
      simp at h
      rw [ih s2 s1 h, handleAddedNode_userPressed cfg s n s2 hn]

/-- Claim C7: from a state whose user-intent flag is clear, no event that
returns normally emits a programmatic load-more click, and only a user click
on a load-more control can set the flag again. -/
theorem C7_no_auto_continue (cfg : Config) (s : AppState) (e : Ev)
    (r : AppState × Option Nat)
    (hp : s.ui.userPressed = false)
    (hstep : step cfg s e = some r) :
    r.2 = none ∧ (r.1.ui.userPressed = true → e = Ev.userClick) := by
  cases e with
  | batch nodes =>
    simp only [step, observeMutations] at hstep
    cases hpn : processNodes cfg s nodes with
    | none => rw [hpn] at hstep; simp at hstep
    | some s2 =>
      rw [hpn] at hstep
      simp at hstep
      have hup2 : s2.ui.userPressed = false := by
        rw [processNodes_userPressed cfg nodes s s2 hpn, hp]
      have hcond : ¬(s2.currentLoadCount < cfg.options.targetLoadCount
          ∧ s2.ui.userPressed = true) := by
        intro hc
        rw [hup2] at hc
        exact Bool.false_ne_true hc.2
      rw [← hstep]
      simp only [loadMoreOrReset, if_neg hcond]
      refine ⟨by trivial, fun hcontra => ?_⟩
      rw [resetState_userPressed] at hcontra
      cases hcontra
  | userClick =>
    simp only [step] at hstep
    simp at hstep
    rw [← hstep]
    exact ⟨rfl, fun _ => rfl⟩
  | cancelClick =>
    simp only [step] at hstep
    simp at hstep
    rw [← hstep]
    refine ⟨rfl, fun hcontra => ?_⟩
    have : (cancelListener s.ui).userPressed = false := by
      rw [cancelListener, hideCancel_userPressed]
    rw [this] at hcontra
    cases hcontra
  
/-- Claim C7 witness: the theorem applied to a cancel click from a state with
the flag clear. -/
theorem C7_no_auto_continue_witness :
    ((({ currentLoadCount := 5,
         ui := { userPressed := false, cancel := some false, loadMore := some 7 } },
        none) : AppState × Option Nat).2 = none
      ∧ ((({ currentLoadCount := 5,
             ui := { userPressed := false, cancel := some false, loadMore := some 7 } },
            (none : Option Nat)) : AppState × Option Nat).1.ui.userPressed = true →
          Ev.cancelClick = Ev.userClick)) :=
  C7_no_auto_continue c3Config c3ResetState Ev.cancelClick _ rfl rfl

/-- Claim C8: the `clickLoadMore` operation reports exactly the held control,
always leaves no held control behind, is a pure no-op when none is held, and
applied twice in a row never emits a second programmatic click. -/
theorem C8_single_use_control (ui : UIState) :
    (clickLoadMore ui).2 = ui.loadMore
    ∧ (clickLoadMore ui).1.loadMore = none
    ∧ (ui.loadMore = none → clickLoadMore ui = (ui, none))
    ∧ (clickLoadMore (clickLoadMore ui).1).2 = none := by
  cases hl : ui.loadMore <;>
    simp [clickLoadMore, hl, loadMoreListener, showCancel]

/-- Claim C8 witness: the theorem applied to the fresh controller state, whose
held reference is absent, so the operation is a no-op. -/
theorem C8_single_use_control_witness :
    clickLoadMore UIState.init = (UIState.init, none) :=
  (C8_single_use_control UIState.init).2.2.1 rfl

/-- Claim C10: the fresh controller starts with the user-intent flag set
(not the Idle value), so the very first batch that delivers a load-more
control and leaves the survived count below the target invokes that control
programmatically although the user never clicked it. -/
theorem C10_initial_flag_auto_continue :
    UIState.init.userPressed = true
    ∧ ∀ cfg : Config, 0 < cfg.options.targetLoadCount →
        observeMutations cfg AppState.init [BatchNode.button 0] =
          some ({ currentLoadCount := 0,
                  ui := { userPressed := true, cancel := some true, loadMore := none } },
                some 0) := by
  refine ⟨rfl, ?_⟩
  intro cfg h
  simp [observeMutations, processNodes, handleAddedNode, setLoadMore, AppState.init,
    UIState.init, loadMoreOrReset, clickLoadMore, loadMoreListener, showCancel, h]

/-- Claim C10 witness: the auto-invocation of the first control on the fresh
state under a concrete configuration with target count 2. -/
theorem C10_initial_flag_auto_continue_witness :
    observeMutations c3Config AppState.init [BatchNode.button 0] =
      some ({ currentLoadCount := 0,
              ui := { userPressed := true, cancel := some true, loadMore := none } },
            some 0) :=
  C10_initial_flag_auto_continue.2 c3Config (by decide)

end HideUnwanted
